import Mathlib

/-!
Shallow embedding of the `r-reactive` repository: the DashMap-style hash
bucket (`src/dash/bucket.rs`, `src/dash/pair.rs`) and the reactive key/value
store (`src/reactive_store.rs`).

Machine integers (`u32`, `u8`, `usize`) are modelled as `Nat`, with explicit
`% 2 ^ 32` wherever the Rust code performs wrapping `u32` arithmetic.
`Vec<Option<Pair<T>>>` and the fingerprint array become Lean `List`s,
constructed with the lengths the Rust constructor uses (14 and 18).
The `AtomicU32` version-lock word is modelled as a plain `Nat` holding the
current `u32` value; single-threaded lock operations become state-passing
functions, and the two-thread `try_get_lock` race is modelled as an explicit
interleaving of the two atomic steps (load, compare-exchange) each call
performs.
-/

namespace RReactive

/-! ### `src/dash/pair.rs` -/

/-- `pub(crate) type ValueT = Vec<u8>;` — a byte vector, bytes as `Nat`. -/
abbrev ValueT := List Nat

/-- `pub struct Pair<T> { pub key: T, pub value: ValueT }` -/
structure Pair (T : Type) where
  key : T
  value : ValueT
deriving DecidableEq

/-- `Pair::new(key, value)` -/
def Pair.new {T : Type} (key : T) (value : ValueT) : Pair T := ⟨key, value⟩

/-! ### `src/dash/bucket.rs` — constants and data model -/

/-- `const LOCK_SET: u32 = 1 << 31;` -/
def LOCK_SET : Nat := 1 <<< 31

/-- `const LOCK_MASK: u32 = (1 << 31) - 1;` -/
def LOCK_MASK : Nat := (1 <<< 31) - 1

/-- `pub(crate) const K_NUM_PAIR_PER_BUCKET: usize = 14;` -/
def K_NUM_PAIR_PER_BUCKET : Nat := 14

/-- `const COUNT_MASK: u32 = (1 << 4) - 1;` -/
def COUNT_MASK : Nat := (1 <<< 4) - 1

/-- The modulus of `u32` arithmetic. -/
def U32_SIZE : Nat := 2 ^ 32

/-- `enum BucketError { BucketFull }` -/
inductive BucketError where
  | BucketFull
deriving DecidableEq

/-- `pub(crate) struct Bucket<T>` with its eight fields.  The
`Arc<AtomicU32>` version lock is modelled by the `u32` value it holds. -/
structure Bucket (T : Type) where
  pairs : List (Option (Pair T))
  overflow_count : Nat
  overflow_member : Nat
  overflow_index : Nat
  overflow_bitmap : Nat
  fingerprints : List Nat
  bitmap : Nat
  version_lock : Nat
deriving DecidableEq

/-- `Bucket::new()` — 14 empty slots, 18 zero fingerprint bytes, zero
bitmap, zero lock word. -/
def Bucket.new {T : Type} : Bucket T :=
  { pairs := List.replicate K_NUM_PAIR_PER_BUCKET none
    overflow_count := 0
    overflow_member := 0
    overflow_index := 0
    overflow_bitmap := 0
    fingerprints := List.replicate 18 0
    bitmap := 0
    version_lock := 0 }

/-! ### Bitmap codec (`get_count_from_bitmap`, `get_bitmap`) -/

/-- `fn get_count_from_bitmap(map: u32) -> usize { (map & COUNT_MASK) as usize }` -/
def get_count_from_bitmap (map : Nat) : Nat := map &&& COUNT_MASK

/-- `pub fn get_bitmap(var: u32) -> u32 { var >> 18 }` -/
def get_bitmap (var : Nat) : Nat := var >>> 18

/-- Bitwise complement on a `u32` value (`!x` in Rust). -/
def u32_not (x : Nat) : Nat := (U32_SIZE - 1) ^^^ x

/-- Helper for `u32::trailing_zeros`: scan bit indices upward, with fuel. -/
def tzFrom (n : Nat) : Nat → Nat → Nat
  | 0, i => i
  | fuel + 1, i => if n.testBit i then i else tzFrom n fuel (i + 1)

/-- `u32::trailing_zeros`: index of the lowest set bit, or 32 when no bit
below 32 is set. -/
def trailing_zeros (n : Nat) : Nat := tzFrom n 32 0

/-! ### Lock primitives

Each function takes the current value of the shared `AtomicU32` lock word
and returns the value after the call (single-threaded semantics; the
two-thread interleaved semantics used for the concurrency claim is defined
separately below). -/

/-- `release_lock`: `store(old_value + 1 - LOCK_SET)`.  The Rust `u32`
arithmetic wraps (release mode), so the model computes
`(w + 1 - LOCK_SET) mod 2^32`, written with an added `2^32` so that the
natural-number subtraction never truncates. -/
def release_lock (w : Nat) : Nat := (w + 1 + (U32_SIZE - LOCK_SET)) % U32_SIZE

/-- `get_lock`: spin until a compare-exchange from the lock-flag-stripped
value to that value with the flag set succeeds.  Single-threaded the loaded
word never changes between iterations, so the CAS either succeeds on the
first try (the word equals its masked view, i.e. the flag was clear) or the
loop spins forever — modelled as `none`. -/
def get_lock (w : Nat) : Option Nat :=
  let old_value := w &&& LOCK_MASK
  if w = old_value then some (old_value ||| LOCK_SET) else none

/-- `try_get_lock`: one load + one compare-exchange; returns whether it
succeeded together with the resulting lock word (unchanged on failure). -/
def try_get_lock (w : Nat) : Bool × Nat :=
  let old_value := w &&& LOCK_MASK
  if w = old_value then (true, old_value ||| LOCK_SET) else (false, w)

/-- `is_locked`: `load & LOCK_SET != 0`. -/
def is_locked (w : Nat) : Bool := w &&& LOCK_SET != 0

/-- `reset_lock`: `store(0)`. -/
def reset_lock (_w : Nat) : Nat := 0

/-- One `get_lock` followed by one `release_lock` (the critical section is
empty), as in the version-monotonicity property. -/
def acqRel (w : Nat) : Option Nat := (get_lock w).map release_lock

/-- `n` sequential `acquire_lock(); release_lock()` rounds starting from
lock word `w`; `none` when some acquisition spins forever. -/
def iterAcqRel : Nat → Nat → Option Nat
  | 0, w => some w
  | n + 1, w =>
    match acqRel w with
    | some w1 => iterAcqRel n w1
    | none => none

/-! ### Bucket insertion -/

/-- `find_empty_slot`: full when the count field reads 14, otherwise the
trailing-zero count of the complement of the allocation mask. -/
def Bucket.find_empty_slot {T : Type} (b : Bucket T) : Option Nat :=
  if get_count_from_bitmap b.bitmap = K_NUM_PAIR_PER_BUCKET then none
  else some (trailing_zeros (u32_not (get_bitmap b.bitmap)))

/-- `set_hash(slot, hash, probe)`: store the fingerprint byte, set the
allocation bit `18 + slot`, set the probe bit `4 + slot` when `probe`, and
increment the count field — one update of the bitmap word (`u32` wrapping
addition). -/
def Bucket.set_hash {T : Type} (b : Bucket T) (slot hash : Nat) (probe : Bool) :
    Bucket T :=
  let fingerprints := b.fingerprints.set slot hash
  let new_bitmap := b.bitmap ||| (1 <<< (slot + 18))
  let new_bitmap := if probe then new_bitmap ||| (1 <<< (slot + 4)) else new_bitmap
  { b with fingerprints := fingerprints, bitmap := (new_bitmap + 1) % U32_SIZE }

/-- `insert(key, value, meta_hash, probe)`: the returned bucket is the state
of `&mut self` after the call (unchanged when the bucket is full). -/
def Bucket.insert {T : Type} (b : Bucket T) (key : T) (value : ValueT)
    (meta_hash : Nat) (probe : Bool) : Bucket T × Except BucketError Nat :=
  match b.find_empty_slot with
  | some slot =>
    let b1 : Bucket T := { b with pairs := b.pairs.set slot (some (Pair.new key value)) }
    (b1.set_hash slot meta_hash probe, Except.ok slot)
  | none => (b, Except.error BucketError.BucketFull)

/-- Population count of the 14 allocation bits of a (shifted) mask. -/
def popCount14 (n : Nat) : Nat :=
  ((Finset.range 14).filter (fun i => n.testBit i = true)).card

/-- Bucket states reachable from `Bucket::new()` by any sequence of
`insert` calls, successful or failed. -/
inductive Reachable {T : Type} : Bucket T → Prop where
  | new : Reachable Bucket.new
  | step (b : Bucket T) (key : T) (value : ValueT) (meta_hash : Nat) (probe : Bool) :
      Reachable b → Reachable (b.insert key value meta_hash probe).fst

/-- The structural invariant of a bucket: a well-formed `u32` bitmap, the
constructor's array lengths, count field = popcount of the allocation bits,
probe bits only on allocated slots, and slot `s` occupied iff allocation
bit `18 + s` is set. -/
def Inv {T : Type} (b : Bucket T) : Prop :=
  b.bitmap < U32_SIZE ∧
  b.pairs.length = 14 ∧
  b.fingerprints.length = 18 ∧
  get_count_from_bitmap b.bitmap = popCount14 (get_bitmap b.bitmap) ∧
  (∀ s, s < 14 → b.bitmap.testBit (4 + s) = true → b.bitmap.testBit (18 + s) = true) ∧
  (∀ s, s < 14 → ((∃ p, b.pairs[s]? = some (some p)) ↔ b.bitmap.testBit (18 + s) = true))

/-! ### Two-thread interleaving model of `try_get_lock`

`try_get_lock` performs two separate atomic steps on the shared word: a
`load` (whose result is masked with `LOCK_MASK`) and a `compare_exchange`.
Two concurrent calls are modelled as two three-state threads stepped in an
arbitrary interleaving. -/

/-- Local state of one thread running `try_get_lock`:
`pc = 0` before the load, `pc = 1` between load and CAS (with `old` the
masked loaded value), `pc = 2` after the CAS (with `res` its outcome). -/
structure TryLockThread where
  pc : Nat
  old : Nat
  res : Bool
deriving DecidableEq

/-- Shared lock word plus the two thread-local states. -/
structure TryLockExec where
  word : Nat
  thA : TryLockThread
  thB : TryLockThread
deriving DecidableEq

/-- One atomic step of one thread: the load, then the compare-exchange
(`compare_exchange(old, old | LOCK_SET)`); a failed CAS does not write. -/
def threadStep (t : TryLockThread) (word : Nat) : TryLockThread × Nat :=
  if t.pc = 0 then ({ t with pc := 1, old := word &&& LOCK_MASK }, word)
  else if t.pc = 1 then
    if word = t.old then ({ t with pc := 2, res := true }, t.old ||| LOCK_SET)
    else ({ t with pc := 2, res := false }, word)
  else (t, word)

/-- Step the scheduled thread (`true` = thread A, `false` = thread B). -/
def execStep (isA : Bool) (s : TryLockExec) : TryLockExec :=
  if isA then
    { s with thA := (threadStep s.thA s.word).fst, word := (threadStep s.thA s.word).snd }
  else
    { s with thB := (threadStep s.thB s.word).fst, word := (threadStep s.thB s.word).snd }

/-- Run a schedule (list of thread choices) from a state. -/
def runSched (sched : List Bool) (s : TryLockExec) : TryLockExec :=
  sched.foldl (fun s m => execStep m s) s

/-- Both threads at their first instruction, shared word `w`. -/
def initExec (w : Nat) : TryLockExec :=
  { word := w, thA := ⟨0, 0, false⟩, thB := ⟨0, 0, false⟩ }

/-! ### `src/reactive_store.rs`

`HashMap<String, StoreValue>` is modelled as an association list in which
`insert` replaces any existing binding and `remove` drops the binding, and
the broadcast channel as the list of `(key, value)` events sent so far. -/

/-- `pub enum StoreValue` — `Map`, `List`, `Set`, `Counter`, `Text`. -/
inductive StoreValue where
  | Map : List (String × StoreValue) → StoreValue
  | List : List StoreValue → StoreValue
  | Set : List String → StoreValue
  | Counter : Int → StoreValue
  | Text : String → StoreValue

/-- `pub struct ReactiveStore { data, tx }`: the map contents and the
events sent on the broadcast channel so far. -/
structure ReactiveStore where
  data : List (String × StoreValue)
  events : List (String × StoreValue)

/-- `ReactiveStore::new()` — empty map, no events sent. -/
def ReactiveStore.new : ReactiveStore := ⟨[], []⟩

/-- `set(key, value)`: `data.insert(key, value)` (replacing any existing
binding for `key`), then `tx.send((key, value))`. -/
def ReactiveStore.set (s : ReactiveStore) (key : String) (value : StoreValue) :
    ReactiveStore :=
  { data := (key, value) :: s.data.filter (fun p => p.1 != key)
    events := s.events ++ [(key, value)] }

/-- `get(key)`: `data.get(key).cloned()`. -/
def ReactiveStore.get (s : ReactiveStore) (key : String) : Option StoreValue :=
  s.data.lookup key

/-- `remove(key)`: `data.remove(key)`; nothing is sent on the channel. -/
def ReactiveStore.remove (s : ReactiveStore) (key : String) : ReactiveStore :=
  { s with data := s.data.filter (fun p => p.1 != key) }

/-- `set_with_ttl(key, value, ttl)`: calls `self.set(key, value)`; the
remaining statements only clone handles into unused locals, so no timer is
scheduled and the `ttl` argument is never consulted. -/
def ReactiveStore.set_with_ttl (s : ReactiveStore) (key : String)
    (value : StoreValue) (_ttl : Nat) : ReactiveStore :=
  s.set key value

/-! ### Concrete states used to instantiate the theorems -/

/-- A bucket whose bitmap count field reads 14. -/
def bucketCount14 : Bucket Nat := { Bucket.new with bitmap := 14 }

/-- A bucket whose allocation bits say slots 0 and 2 are occupied
(count field 2, allocation bits 18 and 20). -/
def bucketSlots02 : Bucket Nat :=
  { Bucket.new with bitmap := 2 ^ 18 + 2 ^ 20 + 2 }

/-! ### Helper lemmas: the lock word -/

theorem LOCK_SET_eq : LOCK_SET = 2 ^ 31 := by
  norm_num [LOCK_SET, Nat.shiftLeft_eq]

theorem LOCK_MASK_eq : LOCK_MASK = 2 ^ 31 - 1 := by
  norm_num [LOCK_MASK, Nat.shiftLeft_eq]

theorem lt_two_pow_31 {w : Nat} (hw : w < U32_SIZE) (h : w.testBit 31 = false) :
    w < 2 ^ 31 := by
  have h1 : ¬ (w / 2 ^ 31 % 2 = 1) := by
    simpa [Nat.testBit_to_div_mod] using h
  have h2 : w < 2 ^ 32 := hw
  omega

theorem and_mask_of_lt {w : Nat} (h : w < 2 ^ 31) : w &&& LOCK_MASK = w := by
  rw [LOCK_MASK_eq, Nat.and_pow_two_sub_one_eq_mod]
  exact Nat.mod_eq_of_lt h

theorem lor_lock_set_ne {w : Nat} (h : w.testBit 31 = false) :
    ¬ (w ||| LOCK_SET = w) := by
  intro hEq
  have h31 : (w ||| LOCK_SET).testBit 31 = true := by
    rw [Nat.testBit_or, LOCK_SET_eq, Nat.testBit_two_pow_self, Bool.or_true]
  rw [hEq, h] at h31
  exact Bool.noConfusion h31

theorem lor_lock_and_mask {w : Nat} (h : w < 2 ^ 31) :
    (w ||| LOCK_SET) &&& LOCK_MASK = w := by
  rw [LOCK_SET_eq, LOCK_MASK_eq, Nat.and_pow_two_sub_one_eq_mod]
  apply Nat.eq_of_testBit_eq
  intro i
  rw [Nat.testBit_mod_two_pow, Nat.testBit_or]
  by_cases hi : i < 31
  · have h2 : Nat.testBit (2 ^ 31) i = false := Nat.testBit_two_pow_of_ne (by omega)
    rw [h2]
    simp [hi]
  · have hle : (2 : Nat) ^ 31 ≤ 2 ^ i := Nat.pow_le_pow_right (by norm_num) (by omega)
    have hw : w.testBit i = false := Nat.testBit_lt_two_pow (lt_of_lt_of_le h hle)
    rw [hw]
    simp [hi]

theorem release_lock_eq {w : Nat} (h : w + 1 < 2 ^ 31) :
    release_lock w = w + 1 + 2 ^ 31 := by
  unfold release_lock
  rw [LOCK_SET_eq]
  have hU : U32_SIZE = 2 ^ 32 := rfl
  rw [hU]
  have hp : (2 : Nat) ^ 32 = 2 ^ 31 * 2 := by norm_num
  omega

theorem testBit31_of_ge {x : Nat} (h1 : 2 ^ 31 ≤ x) (h2 : x < 2 ^ 32) :
    x.testBit 31 = true := by
  have hd : x / 2 ^ 31 = 1 := by omega
  rw [Nat.testBit_to_div_mod, hd]
  decide

/-! ### Helper lemmas: the reactive store -/

theorem lookup_filter_ne (key : String) (l : List (String × StoreValue)) :
    (l.filter (fun p => p.1 != key)).lookup key = none := by
  induction l with
  | nil => rfl
  | cons p t ih =>
    by_cases h : p.1 = key
    · simp [List.filter_cons, h, ih]
    · simp only [List.filter_cons]
      have hb : (p.1 != key) = true := by simp [h]
      rw [if_pos hb]
      have hk : (key == p.1) = false := by
        simp [Ne.symm h]
      simp [List.lookup, hk, ih]

theorem keys_ne_of_lookup_none (key : String) (l : List (String × StoreValue)) :
    l.lookup key = none → ∀ p ∈ l, (p.1 != key) = true := by
  induction l with
  | nil => intro _ p hp; cases hp
  | cons q t ih =>
    obtain ⟨qk, qv⟩ := q
    intro h p hp
    cases hbeq : (key == qk) with
    | true => simp [List.lookup, hbeq] at h
    | false =>
      have ht : t.lookup key = none := by simpa [List.lookup, hbeq] using h
      rcases List.mem_cons.mp hp with hp | hp
      · subst hp
        simp only [bne_iff_ne, ne_eq]
        intro hk
        rw [hk] at hbeq
        simp at hbeq
      · exact ih ht p hp

/-! ### Helper lemmas: trailing zeros and popcount -/

theorem tzFrom_eq (n : Nat) : ∀ (f i k : Nat), i ≤ k → k < i + f →
    n.testBit k = true → (∀ j, i ≤ j → j < k → n.testBit j = false) →
    tzFrom n f i = k := by
  intro f
  induction f with
  | zero => intro i k h1 h2 _ _; omega
  | succ f ih =>
    intro i k h1 h2 hk hmin
    by_cases hi : n.testBit i = true
    · have hki : k = i := by
        by_contra hne
        have hik : i < k := lt_of_le_of_ne h1 (Ne.symm hne)
        rw [hmin i le_rfl hik] at hi
        exact Bool.noConfusion hi
      simp [tzFrom, hi, hki]
    · have hik : i < k := by
        rcases Nat.lt_or_ge i k with h | h
        · exact h
        · have : i = k := le_antisymm (le_of_not_lt (by omega)) h
          rw [this, hk] at hi
          exact absurd rfl hi
      simp only [tzFrom, hi, if_false, Bool.false_eq_true]
      exact ih (i + 1) k (by omega) (by omega) hk (fun j hj1 hj2 => hmin j (by omega) hj2)

theorem popCount14_le (n : Nat) : popCount14 n ≤ 14 := by
  unfold popCount14
  calc ((Finset.range 14).filter (fun i => n.testBit i = true)).card
      ≤ (Finset.range 14).card := Finset.card_filter_le _ _
    _ = 14 := Finset.card_range 14

theorem exists_unset_of_popCount14_lt {n : Nat} (h : popCount14 n < 14) :
    ∃ i, i < 14 ∧ n.testBit i = false := by
  by_contra hall
  push_neg at hall
  have hfix : (Finset.range 14).filter (fun i => n.testBit i = true) = Finset.range 14 := by
    apply Finset.filter_true_of_mem
    intro i hi
    have := hall i (Finset.mem_range.mp hi)
    revert this
    cases n.testBit i <;> simp
  rw [popCount14, hfix, Finset.card_range] at h
  omega

theorem popCount14_congr {m n : Nat} (h : ∀ i, i < 14 → m.testBit i = n.testBit i) :
    popCount14 m = popCount14 n := by
  unfold popCount14
  congr 1
  apply Finset.filter_congr
  intro i hi
  rw [h i (Finset.mem_range.mp hi)]

theorem popCount14_lor_two_pow {n s : Nat} (hs : s < 14) (h : n.testBit s = false) :
    popCount14 (n ||| 2 ^ s) = popCount14 n + 1 := by
  unfold popCount14
  have hset : (Finset.range 14).filter (fun i => (n ||| 2 ^ s).testBit i = true)
      = insert s ((Finset.range 14).filter (fun i => n.testBit i = true)) := by
    ext j
    simp only [Finset.mem_filter, Finset.mem_insert, Finset.mem_range, Nat.testBit_or,
      Bool.or_eq_true, Nat.testBit_two_pow, decide_eq_true_eq]
    constructor
    · rintro ⟨hj, hn | hsj⟩
      · exact Or.inr ⟨hj, hn⟩
      · exact Or.inl hsj.symm
    · rintro (rfl | ⟨hj, hn⟩)
      · exact ⟨hs, Or.inr rfl⟩
      · exact ⟨hj, Or.inl hn⟩
  rw [hset, Finset.card_insert_of_not_mem]
  simp [Finset.mem_filter, h]

/-! ### Helper lemmas: the bitmap word under `set_hash` -/

theorem mod16_lor_high (B e : Nat) (he : 4 ≤ e) : (B ||| 2 ^ e) % 16 = B % 16 := by
  have h16 : (16 : Nat) = 2 ^ 4 := by norm_num
  apply Nat.eq_of_testBit_eq
  intro i
  rw [h16, Nat.testBit_mod_two_pow, Nat.testBit_mod_two_pow, Nat.testBit_or]
  by_cases hi : i < 4
  · have h2 : Nat.testBit (2 ^ e) i = false := Nat.testBit_two_pow_of_ne (by omega)
    rw [h2]
    simp
  · simp [hi]

theorem testBit_add_one_high (X k : Nat) (hlow : X % 16 < 15) :
    (X + 1).testBit (4 + k) = X.testBit (4 + k) := by
  have h16 : (X + 1) / 16 = X / 16 := by omega
  have e : ∀ Y : Nat, Y / 2 ^ (4 + k) = Y / 16 / 2 ^ k := by
    intro Y
    rw [Nat.div_div_eq_div_mul]
    norm_num [Nat.pow_add]
  rw [Nat.testBit_to_div_mod, Nat.testBit_to_div_mod, e, e, h16]

theorem set_hash_bitmap_facts {T : Type} (b : Bucket T) (s hash : Nat) (probe : Bool)
    (hB : b.bitmap < 2 ^ 32) (hs : s < 14) (hcnt : b.bitmap % 16 < 14) :
    (b.set_hash s hash probe).bitmap < 2 ^ 32 ∧
    (b.set_hash s hash probe).bitmap % 16 = b.bitmap % 16 + 1 ∧
    (∀ j, 4 ≤ j → (b.set_hash s hash probe).bitmap.testBit j
      = (b.bitmap.testBit j || (decide (s + 18 = j) || (probe && decide (s + 4 = j))))) := by
  have hp18 : (2 : Nat) ^ (s + 18) < 2 ^ 32 := Nat.pow_lt_pow_right (by norm_num) (by omega)
  have hp4 : (2 : Nat) ^ (s + 4) < 2 ^ 32 := Nat.pow_lt_pow_right (by norm_num) (by omega)
  cases probe with
  | false =>
    have hXlt : b.bitmap ||| 2 ^ (s + 18) < 2 ^ 32 := Nat.or_lt_two_pow hB hp18
    have hXmod : (b.bitmap ||| 2 ^ (s + 18)) % 16 = b.bitmap % 16 :=
      mod16_lor_high _ _ (by omega)
    have hbm : (b.set_hash s hash false).bitmap = (b.bitmap ||| 2 ^ (s + 18)) + 1 := by
      simp only [Bucket.set_hash, U32_SIZE, Bool.false_eq_true, if_false, Nat.one_shiftLeft]
      omega
    refine ⟨by rw [hbm]; omega, by rw [hbm]; omega, ?_⟩
    intro j hj
    obtain ⟨k, rfl⟩ : ∃ k, j = 4 + k := ⟨j - 4, by omega⟩
    rw [hbm, testBit_add_one_high _ _ (by omega), Nat.testBit_or, Nat.testBit_two_pow]
    simp
  | true =>
    have hXlt : (b.bitmap ||| 2 ^ (s + 18)) ||| 2 ^ (s + 4) < 2 ^ 32 :=
      Nat.or_lt_two_pow (Nat.or_lt_two_pow hB hp18) hp4
    have hXmod : ((b.bitmap ||| 2 ^ (s + 18)) ||| 2 ^ (s + 4)) % 16 = b.bitmap % 16 := by
      rw [mod16_lor_high _ _ (by omega), mod16_lor_high _ _ (by omega)]
    have hbm : (b.set_hash s hash true).bitmap
        = ((b.bitmap ||| 2 ^ (s + 18)) ||| 2 ^ (s + 4)) + 1 := by
      simp only [Bucket.set_hash, U32_SIZE, if_true, Nat.one_shiftLeft]
      omega
    refine ⟨by rw [hbm]; omega, by rw [hbm]; omega, ?_⟩
    intro j hj
    obtain ⟨k, rfl⟩ : ∃ k, j = 4 + k := ⟨j - 4, by omega⟩
    rw [hbm, testBit_add_one_high _ _ (by omega), Nat.testBit_or, Nat.testBit_or,
      Nat.testBit_two_pow, Nat.testBit_two_pow]
    simp [Bool.or_assoc]

theorem find_empty_slot_some {T : Type} (b : Bucket T)
    (hcount : get_count_from_bitmap b.bitmap = popCount14 (get_bitmap b.bitmap))
    (hlt : get_count_from_bitmap b.bitmap < 14) :
    ∃ s, b.find_empty_slot = some s ∧ s < 14 ∧
      b.bitmap.testBit (18 + s) = false ∧
      (∀ j, j < s → b.bitmap.testBit (18 + j) = true) ∧
      s = trailing_zeros (u32_not (get_bitmap b.bitmap)) := by
  have hpc : popCount14 (get_bitmap b.bitmap) < 14 := hcount ▸ hlt
  obtain ⟨i, hi14, hib⟩ := exists_unset_of_popCount14_lt hpc
  have hex : ∃ j, (get_bitmap b.bitmap).testBit j = false := ⟨i, hib⟩
  have hs14 : Nat.find hex < 14 := lt_of_le_of_lt (Nat.find_min' hex hib) hi14
  have hspec : (get_bitmap b.bitmap).testBit (Nat.find hex) = false := Nat.find_spec hex
  have hmin : ∀ j, j < Nat.find hex → (get_bitmap b.bitmap).testBit j = true := by
    intro j hj
    have hnot := Nat.find_min hex hj
    revert hnot
    cases (get_bitmap b.bitmap).testBit j <;> simp
  have hshift : ∀ j, (get_bitmap b.bitmap).testBit j = b.bitmap.testBit (18 + j) := by
    intro j
    rw [get_bitmap, Nat.testBit_shiftRight]
  have htz : trailing_zeros (u32_not (get_bitmap b.bitmap)) = Nat.find hex := by
    apply tzFrom_eq
    · exact Nat.zero_le _
    · omega
    · rw [u32_not, Nat.testBit_xor, hspec]
      have h32 : Nat.testBit (U32_SIZE - 1) (Nat.find hex) = true := by
        rw [U32_SIZE, Nat.testBit_two_pow_sub_one]
        simp only [decide_eq_true_eq]
        omega
      rw [h32]
      rfl
    · intro j _ hj
      rw [u32_not, Nat.testBit_xor, hmin j hj]
      have h32 : Nat.testBit (U32_SIZE - 1) j = true := by
        rw [U32_SIZE, Nat.testBit_two_pow_sub_one]
        simp only [decide_eq_true_eq]
        omega
      rw [h32]
      rfl
  refine ⟨Nat.find hex, ?_, hs14, ?_, ?_, htz.symm⟩
  · rw [Bucket.find_empty_slot, if_neg (by rw [K_NUM_PAIR_PER_BUCKET]; omega), htz]
  · rw [← hshift]
    exact hspec
  · intro j hj
    rw [← hshift]
    exact hmin j hj

theorem get_count_eq_mod16 (m : Nat) : get_count_from_bitmap m = m % 16 := by
  have h : COUNT_MASK = 2 ^ 4 - 1 := by norm_num [COUNT_MASK, Nat.shiftLeft_eq]
  rw [get_count_from_bitmap, h, Nat.and_pow_two_sub_one_eq_mod]

theorem inv_new {T : Type} : Inv (Bucket.new : Bucket T) := by
  refine ⟨?_, ?_, ?_, ?_, ?_, ?_⟩
  · show (0 : Nat) < U32_SIZE
    decide
  · show (List.replicate 14 (none : Option (Pair T))).length = 14
    simp
  · show (List.replicate 18 (0 : Nat)).length = 18
    simp
  · show get_count_from_bitmap 0 = popCount14 (get_bitmap 0)
    decide
  · intro s _ h
    have hz : (Bucket.new : Bucket T).bitmap.testBit (4 + s) = false := Nat.zero_testBit _
    rw [hz] at h
    exact Bool.noConfusion h
  · intro s hs
    constructor
    · rintro ⟨p, hp⟩
      have hrep : (Bucket.new : Bucket T).pairs[s]? = some none := by
        show (List.replicate 14 (none : Option (Pair T)))[s]? = some none
        exact List.getElem?_replicate_of_lt hs
      rw [hrep] at hp
      exact Option.noConfusion (Option.some.inj hp)
    · intro h
      have hz : (Bucket.new : Bucket T).bitmap.testBit (18 + s) = false := Nat.zero_testBit _
      rw [hz] at h
      exact Bool.noConfusion h

theorem inv_insert {T : Type} (b : Bucket T) (key : T) (value : ValueT)
    (mh : Nat) (probe : Bool) (hInv : Inv b) :
    Inv (b.insert key value mh probe).fst := by
  obtain ⟨hB, hplen, hflen, hcount, hprobe, hslots⟩ := hInv
  by_cases hfull : get_count_from_bitmap b.bitmap = 14
  · have hfe : b.find_empty_slot = none := by
      rw [Bucket.find_empty_slot, if_pos (by rw [K_NUM_PAIR_PER_BUCKET]; exact hfull)]
    simp only [Bucket.insert, hfe]
    exact ⟨hB, hplen, hflen, hcount, hprobe, hslots⟩
  · have hlt : get_count_from_bitmap b.bitmap < 14 := by
      have hle := popCount14_le (get_bitmap b.bitmap)
      omega
    obtain ⟨s, hfe, hs14, hfree, _hlow, _htz⟩ := find_empty_slot_some b hcount hlt
    have hcnt16 : b.bitmap % 16 < 14 := by
      have he := get_count_eq_mod16 b.bitmap
      omega
    set b1 : Bucket T := { b with pairs := b.pairs.set s (some (Pair.new key value)) }
      with hb1
    have hfst : (b.insert key value mh probe).fst = b1.set_hash s mh probe := by
      simp [Bucket.insert, hfe]
    rw [hfst]
    obtain ⟨hlt32, hmod16, hbits⟩ := set_hash_bitmap_facts b1 s mh probe hB hs14 hcnt16
    refine ⟨hlt32, ?_, ?_, ?_, ?_, ?_⟩
    · show (b.pairs.set s (some (Pair.new key value))).length = 14
      rw [List.length_set]
      exact hplen
    · show (b.fingerprints.set s mh).length = 18
      rw [List.length_set]
      exact hflen
    · have hLHS : get_count_from_bitmap (b1.set_hash s mh probe).bitmap
          = get_count_from_bitmap b.bitmap + 1 := by
        rw [get_count_eq_mod16, get_count_eq_mod16, hmod16]
      have hfree' : (get_bitmap b.bitmap).testBit s = false := by
        rw [get_bitmap, Nat.testBit_shiftRight]
        exact hfree
      have hcongr : ∀ i, i < 14 → (get_bitmap (b1.set_hash s mh probe).bitmap).testBit i
          = ((get_bitmap b.bitmap) ||| 2 ^ s).testBit i := by
        intro i _
        rw [get_bitmap, Nat.testBit_shiftRight, hbits (18 + i) (by omega),
          Nat.testBit_or, Nat.testBit_two_pow, get_bitmap, Nat.testBit_shiftRight]
        have e1 : decide (s + 18 = 18 + i) = decide (s = i) :=
          decide_eq_decide.mpr (by omega)
        have e2 : decide (s + 4 = 18 + i) = false := decide_eq_false (by omega)
        rw [e1, e2, Bool.and_false, Bool.or_false]
      rw [hLHS, popCount14_congr hcongr, popCount14_lor_two_pow hs14 hfree', hcount]
    · intro j hj hpj
      rw [hbits (4 + j) (by omega)] at hpj
      rw [hbits (18 + j) (by omega)]
      have e18 : decide (s + 18 = 4 + j) = false := decide_eq_false (by omega)
      rw [e18, Bool.false_or] at hpj
      cases hcase : b.bitmap.testBit (4 + j) with
      | true =>
        rw [hprobe j hj hcase]
        simp
      | false =>
        rw [hcase, Bool.false_or] at hpj
        obtain ⟨-, hd⟩ := Bool.and_eq_true_iff.mp hpj
        have hsj : s = j := by
          have := of_decide_eq_true hd
          omega
        rw [decide_eq_true (by omega : s + 18 = 18 + j)]
        simp
    · intro j hj
      have hpairs : (b1.set_hash s mh probe).pairs
          = b.pairs.set s (some (Pair.new key value)) := rfl
      rw [hpairs, hbits (18 + j) (by omega)]
      have e4 : decide (s + 4 = 18 + j) = false := decide_eq_false (by omega)
      rw [e4, Bool.and_false, Bool.or_false]
      by_cases hsj : s = j
      · subst hsj
        rw [List.getElem?_set_self (by rw [hplen]; exact hs14)]
        rw [decide_eq_true (by omega : s + 18 = 18 + s), Bool.or_true]
        exact ⟨fun _ => rfl, fun _ => ⟨Pair.new key value, rfl⟩⟩
      · rw [List.getElem?_set_ne hsj]
        rw [decide_eq_false (by omega : ¬ (s + 18 = 18 + j)), Bool.or_false]
        exact hslots j hj

theorem reachable_inv {T : Type} {b : Bucket T} (h : Reachable b) : Inv b := by
  induction h with
  | new => exact inv_new
  | step b key value mh probe _ ih => exact inv_insert b key value mh probe ih

/-! ### Claim theorems -/

/-- C1: if the bucket's bitmap count field reads 14, `insert` returns the
`BucketFull` error and the bucket state — every slot, every fingerprint
byte, the bitmap word, and all other fields — is exactly the state before
the call. -/
theorem insert_full_error {T : Type} (b : Bucket T) (key : T) (value : ValueT)
    (meta_hash : Nat) (probe : Bool)
    (h : get_count_from_bitmap b.bitmap = 14) :
    b.insert key value meta_hash probe = (b, Except.error BucketError.BucketFull) := by
  unfold Bucket.insert Bucket.find_empty_slot
  rw [h]
  simp [K_NUM_PAIR_PER_BUCKET]

/-- Witness for C1: a concrete bucket with count field 14. -/
theorem insert_full_error_witness :
    bucketCount14.insert 0 [] 0 false
      = (bucketCount14, Except.error BucketError.BucketFull) :=
  insert_full_error bucketCount14 0 [] 0 false (by decide)

/-- C2 (evaluation at the failing input): starting from the flag-clear lock
word `2^31 - 1` (version `2^31 - 1`), one `acquire_lock(); release_lock()`
round stores `2^31`: the version counter part is `0 = (2^31 - 1) + 1 (mod 2^31)`
but the lock flag (bit 31) is left **set**, contradicting the claim (and
`release_lock`'s own documentation); a second round then spins forever in
`get_lock` (`none`). -/
theorem acq_rel_wrap_leaves_flag_set :
    iterAcqRel 1 (2 ^ 31 - 1) = some (2 ^ 31) ∧
    (2 ^ 31) &&& LOCK_MASK = 0 ∧
    Nat.testBit (2 ^ 31) 31 = true ∧
    iterAcqRel 2 (2 ^ 31 - 1) = none := by
  decide

/-- C7: two threads each run `try_get_lock` (an atomic load followed by an
atomic compare-exchange) on a shared unlocked lock word; under every
interleaving of the four atomic steps exactly one thread's call succeeds,
and the final lock word is the original word with only the lock flag set —
the loser's failed compare-exchange wrote nothing. -/
theorem try_lock_race_exactly_one (w : Nat) (hw : w < U32_SIZE)
    (hflag : w.testBit 31 = false) (sched : List Bool)
    (hlen : sched.length = 4) (hcnt : sched.count true = 2) :
    ((runSched sched (initExec w)).thA.res ≠ (runSched sched (initExec w)).thB.res) ∧
    (runSched sched (initExec w)).word = w ||| LOCK_SET := by
  have hlt : w < 2 ^ 31 := lt_two_pow_31 hw hflag
  have hmask : w &&& LOCK_MASK = w := and_mask_of_lt hlt
  have hmask2 : (w ||| LOCK_SET) &&& LOCK_MASK = w := lor_lock_and_mask hlt
  have hne : ¬ (w ||| LOCK_SET = w) := lor_lock_set_ne hflag
  rcases sched with _ | ⟨m1, _ | ⟨m2, _ | ⟨m3, _ | ⟨m4, _ | ⟨m5, t⟩⟩⟩⟩⟩ <;>
    simp only [List.length_cons, List.length_nil] at hlen <;> try omega
  cases m1 <;> cases m2 <;> cases m3 <;> cases m4 <;>
    simp_all [runSched, execStep, threadStep, initExec, List.count_cons]

/-- Witness for C7: word 0, schedule A, B, A, B. -/
theorem try_lock_race_exactly_one_witness :
    ((runSched [true, false, true, false] (initExec 0)).thA.res
        ≠ (runSched [true, false, true, false] (initExec 0)).thB.res) ∧
    (runSched [true, false, true, false] (initExec 0)).word = 0 ||| LOCK_SET :=
  try_lock_race_exactly_one 0 (by decide) (by decide) [true, false, true, false]
    (by decide) (by decide)

/-- C8: `set_with_ttl(key, value, d)` is observationally equivalent to
`set(key, value)` for every duration `d`: the resulting state is literally
the state `set` produces, `get key` afterwards returns the value, and the
events broadcast are exactly the old events plus the single `(key, value)`
change event — no expiration is scheduled, the key is never removed, and no
"EXPIRED" notification is ever emitted. -/
theorem set_with_ttl_eq_set (s : ReactiveStore) (key : String)
    (value : StoreValue) (ttl : Nat) :
    s.set_with_ttl key value ttl = s.set key value ∧
    (s.set_with_ttl key value ttl).get key = some value ∧
    (s.set_with_ttl key value ttl).events = s.events ++ [(key, value)] := by
  refine ⟨rfl, ?_, rfl⟩
  show ((key, value) :: s.data.filter (fun p => p.1 != key)).lookup key = some value
  simp [List.lookup]

/-- C9 (amended): when the lock flag of `w` is clear and `w ≠ 2^31 - 1`,
`release_lock` stores `w + 1 - 2^31 (mod 2^32) = w + 1 + 2^31`, a word
whose lock flag is set: releasing an unlocked bucket spuriously locks it.
(At `w = 2^31 - 1` the stored word is `0`, whose flag is clear — see the
counterexample.) -/
theorem release_unlocked_locks (w : Nat) (hw : w < U32_SIZE)
    (hflag : w.testBit 31 = false) (hne : w ≠ 2 ^ 31 - 1) :
    release_lock w = (w + 1 + (U32_SIZE - LOCK_SET)) % U32_SIZE ∧
    release_lock w = w + 1 + 2 ^ 31 ∧
    (release_lock w).testBit 31 = true := by
  have hlt : w < 2 ^ 31 := lt_two_pow_31 hw hflag
  have h1 : w + 1 < 2 ^ 31 := by omega
  have heq : release_lock w = w + 1 + 2 ^ 31 := release_lock_eq h1
  refine ⟨rfl, heq, ?_⟩
  rw [heq]
  exact testBit31_of_ge (by omega) (by omega)

/-- Witness for C9: releasing the never-locked fresh word 0 stores
`2^31 + 1`, which is flagged locked. -/
theorem release_unlocked_locks_witness :
    release_lock 0 = (0 + 1 + (U32_SIZE - LOCK_SET)) % U32_SIZE ∧
    release_lock 0 = 0 + 1 + 2 ^ 31 ∧
    (release_lock 0).testBit 31 = true :=
  release_unlocked_locks 0 (by decide) (by decide) (by decide)

/-- Counterexample for C9 as stated: at the flag-clear word `2^31 - 1`
(the maximal version), `release_lock` stores `0`, whose lock flag is
**clear**, not set. -/
theorem release_unlocked_locks_cex :
    Nat.testBit (2 ^ 31 - 1) 31 = false ∧
    release_lock (2 ^ 31 - 1) = 0 ∧
    Nat.testBit (release_lock (2 ^ 31 - 1)) 31 = false := by
  decide

/-- C10: `remove(key)` broadcasts no change event (the event log is
untouched), `get key` afterwards returns `none`, and removing a key that is
not in the store leaves the stored map unchanged (the operation is total,
so it cannot fail). -/
theorem remove_silent (s : ReactiveStore) (key : String) :
    (s.remove key).events = s.events ∧
    (s.remove key).get key = none ∧
    (s.data.lookup key = none → (s.remove key).data = s.data) := by
  refine ⟨rfl, ?_, ?_⟩
  · show (s.data.filter (fun p => p.1 != key)).lookup key = none
    exact lookup_filter_ne key s.data
  · intro h
    show s.data.filter (fun p => p.1 != key) = s.data
    exact List.filter_eq_self.mpr (keys_ne_of_lookup_none key s.data h)

/-- Witness for C10: removing from the empty store. -/
theorem remove_silent_witness :
    (ReactiveStore.new.remove "k").events = ReactiveStore.new.events ∧
    (ReactiveStore.new.remove "k").get "k" = none ∧
    (ReactiveStore.new.remove "k").data = ReactiveStore.new.data :=
  ⟨(remove_silent ReactiveStore.new "k").1, (remove_silent ReactiveStore.new "k").2.1,
    (remove_silent ReactiveStore.new "k").2.2 rfl⟩

/-- C3: for a bucket satisfying the count-equals-popcount invariant and
holding fewer than 14 pairs (count field below 14), `insert` succeeds and
returns the lowest slot index `s < 14` whose allocation bit (bit `18 + s`)
is clear — computed as the trailing-zero count of the complement of the
allocation mask — so the writes to `pairs[s]` and `fingerprints[s]` are in
bounds. -/
theorem insert_lowest_free_slot {T : Type} (b : Bucket T) (key : T) (value : ValueT)
    (mh : Nat) (probe : Bool)
    (hcount : get_count_from_bitmap b.bitmap = popCount14 (get_bitmap b.bitmap))
    (hlt : get_count_from_bitmap b.bitmap < 14) :
    ∃ s, (b.insert key value mh probe).snd = Except.ok s ∧ s < 14 ∧
      s = trailing_zeros (u32_not (get_bitmap b.bitmap)) ∧
      b.bitmap.testBit (18 + s) = false ∧
      (∀ j, j < s → b.bitmap.testBit (18 + j) = true) := by
  obtain ⟨s, hfe, hs14, hfree, hlow, htz⟩ := find_empty_slot_some b hcount hlt
  refine ⟨s, ?_, hs14, htz, hfree, hlow⟩
  simp [Bucket.insert, hfe]

/-- Witness for C3: inserting into the bucket with slots 0 and 2 occupied
(the spec's own example) — the hypotheses hold by evaluation. -/
theorem insert_lowest_free_slot_witness :
    ∃ s, (bucketSlots02.insert 7 [] 3 false).snd = Except.ok s ∧ s < 14 ∧
      s = trailing_zeros (u32_not (get_bitmap bucketSlots02.bitmap)) ∧
      bucketSlots02.bitmap.testBit (18 + s) = false ∧
      (∀ j, j < s → bucketSlots02.bitmap.testBit (18 + j) = true) :=
  insert_lowest_free_slot bucketSlots02 7 [] 3 false (by decide) (by decide)

/-- C4: for any bucket reachable from `new()` by inserts, if
`insert(key, value, fp, probe)` succeeds returning slot `s`, then
afterwards `fingerprints[s] = fp`, the allocation bit `18 + s` is set, and
the probe bit `4 + s` equals `probe` (set when `probe` is true, clear when
`probe` is false). -/
theorem insert_sets_fingerprint_and_bits {T : Type} {b b2 : Bucket T} {key : T}
    {value : ValueT} {fp : Nat} {probe : Bool} {s : Nat}
    (hr : Reachable b) (hok : b.insert key value fp probe = (b2, Except.ok s)) :
    b2.fingerprints[s]? = some fp ∧
    b2.bitmap.testBit (18 + s) = true ∧
    b2.bitmap.testBit (4 + s) = probe := by
  obtain ⟨hB, hplen, hflen, hcount, hprobe, hslots⟩ := reachable_inv hr
  cases hfe : b.find_empty_slot with
  | none =>
    simp only [Bucket.insert, hfe] at hok
    injection hok with _ h2
    exact Except.noConfusion h2
  | some s0 =>
    simp only [Bucket.insert, hfe] at hok
    injection hok with h1 h2
    injection h2 with h3
    subst h3
    have hne14 : get_count_from_bitmap b.bitmap ≠ 14 := by
      intro h14
      rw [Bucket.find_empty_slot,
        if_pos (by rw [K_NUM_PAIR_PER_BUCKET]; exact h14)] at hfe
      exact Option.noConfusion hfe
    have hlt : get_count_from_bitmap b.bitmap < 14 := by
      have hle := popCount14_le (get_bitmap b.bitmap)
      omega
    obtain ⟨s', hfe', hs14, hfree, _hlow, _htz⟩ := find_empty_slot_some b hcount hlt
    rw [hfe] at hfe'
    injection hfe' with hss
    subst hss
    have hcnt16 : b.bitmap % 16 < 14 := by
      have he := get_count_eq_mod16 b.bitmap
      omega
    subst h1
    obtain ⟨_, _, hbits⟩ := set_hash_bitmap_facts
      { b with pairs := b.pairs.set s0 (some (Pair.new key value)) } s0 fp probe hB hs14 hcnt16
    refine ⟨?_, ?_, ?_⟩
    · show (b.fingerprints.set s0 fp)[s0]? = some fp
      exact List.getElem?_set_self (by rw [hflen]; omega)
    · rw [hbits (18 + s0) (by omega), decide_eq_true (by omega : s0 + 18 = 18 + s0)]
      simp
    · have hpfree : b.bitmap.testBit (4 + s0) = false := by
        cases hc : b.bitmap.testBit (4 + s0) with
        | false => rfl
        | true =>
          rw [hprobe s0 hs14 hc] at hfree
          exact Bool.noConfusion hfree
      rw [hbits (4 + s0) (by omega), hpfree,
        decide_eq_false (by omega : ¬ (s0 + 18 = 4 + s0)),
        decide_eq_true (by omega : s0 + 4 = 4 + s0)]
      cases probe <;> rfl

/-- Witness for C4: the first insert into a fresh bucket, with the probe
flag set, lands in slot 0 with fingerprint 7. -/
theorem insert_sets_fingerprint_and_bits_witness :
    ((Bucket.new : Bucket Nat).insert 5 [] 7 true).fst.fingerprints[0]? = some 7 ∧
    ((Bucket.new : Bucket Nat).insert 5 [] 7 true).fst.bitmap.testBit (18 + 0) = true ∧
    ((Bucket.new : Bucket Nat).insert 5 [] 7 true).fst.bitmap.testBit (4 + 0) = true :=
  insert_sets_fingerprint_and_bits Reachable.new rfl

/-- C5: every bucket state reachable from `new()` by any sequence of
`insert` calls (successful or failed) satisfies: the count field (bitmap
bits 0–3) equals the population count of the allocation bits (bitmap bits
18–31), and slot `s` of the pairs array is `Some` exactly when bit
`18 + s` of the bitmap is set, for every `s < 14`. -/
theorem reachable_count_eq_popcount {T : Type} {b : Bucket T} (hr : Reachable b) :
    get_count_from_bitmap b.bitmap = popCount14 (get_bitmap b.bitmap) ∧
    (∀ s, s < 14 →
      ((∃ p, b.pairs[s]? = some (some p)) ↔ b.bitmap.testBit (18 + s) = true)) := by
  obtain ⟨_, _, _, hcount, _, hslots⟩ := reachable_inv hr
  exact ⟨hcount, hslots⟩

/-- Witness for C5: the fresh bucket is reachable and satisfies the
invariant. -/
theorem reachable_count_eq_popcount_witness :
    get_count_from_bitmap (Bucket.new : Bucket Nat).bitmap
      = popCount14 (get_bitmap (Bucket.new : Bucket Nat).bitmap) ∧
    (∀ s, s < 14 →
      ((∃ p, (Bucket.new : Bucket Nat).pairs[s]? = some (some p))
        ↔ (Bucket.new : Bucket Nat).bitmap.testBit (18 + s) = true)) :=
  reachable_count_eq_popcount Reachable.new

/-- C6: a successful `insert` returning slot `s` modifies only `pairs[s]`,
`fingerprints[s]` and the bitmap word: every other pairs entry, every
other fingerprint byte, the four overflow fields, and the version-lock
word are unchanged — in particular `insert` never reads, acquires or
releases the lock. -/
theorem insert_frame {T : Type} {b b2 : Bucket T} {key : T} {value : ValueT}
    {fp : Nat} {probe : Bool} {s : Nat}
    (hok : b.insert key value fp probe = (b2, Except.ok s)) :
    b2.overflow_count = b.overflow_count ∧
    b2.overflow_member = b.overflow_member ∧
    b2.overflow_index = b.overflow_index ∧
    b2.overflow_bitmap = b.overflow_bitmap ∧
    b2.version_lock = b.version_lock ∧
    (∀ j, j ≠ s → b2.pairs[j]? = b.pairs[j]? ∧ b2.fingerprints[j]? = b.fingerprints[j]?) := by
  cases hfe : b.find_empty_slot with
  | none =>
    simp only [Bucket.insert, hfe] at hok
    injection hok with _ h2
    exact Except.noConfusion h2
  | some s0 =>
    simp only [Bucket.insert, hfe] at hok
    injection hok with h1 h2
    injection h2 with h3
    subst h3
    subst h1
    refine ⟨rfl, rfl, rfl, rfl, rfl, ?_⟩
    intro j hj
    constructor
    · show (b.pairs.set s0 (some (Pair.new key value)))[j]? = b.pairs[j]?
      exact List.getElem?_set_ne (fun h => hj h.symm)
    · show (b.fingerprints.set s0 fp)[j]? = b.fingerprints[j]?
      exact List.getElem?_set_ne (fun h => hj h.symm)

/-- Witness for C6: the first insert into a fresh bucket touches nothing
outside slot 0. -/
theorem insert_frame_witness :
    ((Bucket.new : Bucket Nat).insert 3 [] 5 false).fst.overflow_count
        = (Bucket.new : Bucket Nat).overflow_count ∧
    ((Bucket.new : Bucket Nat).insert 3 [] 5 false).fst.overflow_member
        = (Bucket.new : Bucket Nat).overflow_member ∧
    ((Bucket.new : Bucket Nat).insert 3 [] 5 false).fst.overflow_index
        = (Bucket.new : Bucket Nat).overflow_index ∧
    ((Bucket.new : Bucket Nat).insert 3 [] 5 false).fst.overflow_bitmap
        = (Bucket.new : Bucket Nat).overflow_bitmap ∧
    ((Bucket.new : Bucket Nat).insert 3 [] 5 false).fst.version_lock
        = (Bucket.new : Bucket Nat).version_lock ∧
    (∀ j, j ≠ 0 →
      ((Bucket.new : Bucket Nat).insert 3 [] 5 false).fst.pairs[j]?
          = (Bucket.new : Bucket Nat).pairs[j]? ∧
      ((Bucket.new : Bucket Nat).insert 3 [] 5 false).fst.fingerprints[j]?
          = (Bucket.new : Bucket Nat).fingerprints[j]?) :=
  insert_frame rfl

end RReactive
